import Mathlib

set_option maxRecDepth 8192

/-
Verification of the legislative-text retrieval core: the Segmenter
(src/chunker.rs), the Batch Encoder (src/embedder.rs) and the Vector Index
Client (src/vector_store.rs), shallowly embedded over `List Char` strings,
rational/real vector components and explicit oracles for network responses.
Rust byte positions coincide with character positions on the ASCII inputs
used here; regex matching of the fixed patterns in the source is embedded
directly as character-list scanning.
-/

namespace LegRag

/-- Strings are modelled as lists of characters (Rust `&str` / `String`). -/
abbrev Str := List Char

/-- Rust `str::len` (UTF-8 byte length). -/
def byteLen (s : Str) : Nat := (s.map Char.utf8Size).sum

/-- Rust `str::trim`: drop whitespace from both ends. -/
def rustTrim (s : Str) : Str :=
  ((s.dropWhile Char.isWhitespace).reverse.dropWhile Char.isWhitespace).reverse

/-- Rust `s.lines().next().unwrap_or("")`: the text up to the first newline,
with a carriage return immediately preceding that newline removed. -/
def firstLine (s : Str) : Str :=
  let l := s.takeWhile fun c => c ≠ '\n'
  if l.length < s.length ∧ l.getLast? = some '\r' then l.dropLast else l

/-- Rust `str::to_lowercase` (ASCII-relevant part). -/
def toLowerStr (s : Str) : Str := s.map Char.toLower

/-- Rust `str::contains(needle)`: substring containment. -/
def containsSub (needle : Str) : Str → Bool
  | [] => needle.isEmpty
  | c :: t => needle.isPrefixOf (c :: t) || containsSub needle t

/-- Rust `str::split("\n\n")`: split on non-overlapping double newlines. -/
def splitNN : Str → List Str
  | [] => [[]]
  | '\n' :: '\n' :: rest => [] :: splitNN rest
  | c :: rest =>
    match splitNN rest with
    | [] => [[c]]
    | s :: ss => (c :: s) :: ss

/-- Rust `str::split_whitespace`: maximal runs of non-whitespace. -/
def splitWS (s : Str) : List Str :=
  (s.splitOnP Char.isWhitespace).filter fun w => w ≠ []

/-- `split_whitespace().count()` in the fallback accumulator. -/
def wordCount (s : Str) : Nat := (splitWS s).length

/-- One of the roman-numeral characters `[IVXLCDM]` of the section regex. -/
def romanChar (c : Char) : Bool :=
  c == 'I' || c == 'V' || c == 'X' || c == 'L' || c == 'C' || c == 'D' || c == 'M'

/-- Capture of the anchored regex `^(\d+)\.`: a nonempty leading digit run
followed by a literal dot; returns the digit run. -/
def clauseCapture (s : Str) : Option Str :=
  let ds := s.takeWhile Char.isDigit
  match ds, s.drop ds.length with
  | _ :: _, '.' :: _ => some ds
  | _, _ => none

/-- Does the alternation `\d+\.|CHAPTER [IVXLCDM]+|PREAMBLE|SCHEDULE|Short title`
of `split_into_sections` match at the head of `s`? -/
def sectionPatternAt (s : Str) : Bool :=
  (clauseCapture s).isSome ||
  ("CHAPTER ".data.isPrefixOf s &&
    (match s.drop 8 with | c :: _ => romanChar c | [] => false)) ||
  "PREAMBLE".data.isPrefixOf s ||
  "SCHEDULE".data.isPrefixOf s ||
  "Short title".data.isPrefixOf s

/-- Positions of the `(?m)^(...)` matches of the section regex: `p` carries the
current offset, `ls` whether the position is a line start. -/
def matchStartsAux : Str → Nat → Bool → List Nat
  | [], _, _ => []
  | c :: rest, p, ls =>
    (if ls && sectionPatternAt (c :: rest) then [p] else []) ++
      matchStartsAux rest (p + 1) (c == '\n')

/-- Start offsets of all matches of the section-boundary regex
(`regex::Regex::find_iter` in `split_into_sections`). -/
def matchStarts (text : Str) : List Nat := matchStartsAux text 0 true

/-- Capture of the unanchored regex `CHAPTER ([IVXLCDM]+)` searched over the
first line: leftmost position where `CHAPTER ` is followed by at least one
roman-numeral character; returns the maximal numeral run. -/
def chapterCapture : Str → Option Str
  | [] => none
  | c :: rest =>
    if "CHAPTER ".data.isPrefixOf (c :: rest) &&
        !(((c :: rest).drop 8).takeWhile romanChar).isEmpty then
      some (((c :: rest).drop 8).takeWhile romanChar)
    else chapterCapture rest

/-- `split_into_sections` (src/chunker.rs:36-70): slice the text at the
boundary-marker match starts; when no marker matches, split on blank lines
and keep the non-blank pieces. -/
def split_into_sections (text : Str) : List Str :=
  let ms := matchStarts text
  let sections :=
    match ms with
    | [] => []
    | _ :: _ =>
      ((ms.zip ms.tail).map fun ab => (text.drop ab.1).take (ab.2 - ab.1)) ++
        (match ms.getLast? with
          | some l => [text.drop l]
          | none => [])
  if sections.isEmpty then
    (splitNN text).filter fun s => rustTrim s ≠ []
  else sections

/-- `ChunkType` (src/models.rs). -/
inductive ChunkType where
  | Preamble
  | Clause
  | Section
  | Schedule
  | Other
deriving DecidableEq, Repr

/-- UUIDs are opaque identifiers; `Uuid::new_v4()` is modelled by passing the
freshly drawn value in explicitly. -/
abbrev Uuid := Nat

/-- `TextChunk` (src/models.rs). -/
structure TextChunk where
  bill_id : Uuid
  bill_number : Str
  chunk_index : Nat
  chunk_type : ChunkType
  chunk_identifier : Str
  content : Str
deriving DecidableEq, Repr

/-- `identify_chunk_type` (src/chunker.rs:72-114): ordered pattern rules over
the section body and its trimmed first line. -/
def identify_chunk_type (sec : Str) : ChunkType × Str :=
  let sec_lower := toLowerStr sec
  let fl := rustTrim (firstLine sec)
  if containsSub "be it enacted".data sec_lower || containsSub "preamble".data sec_lower then
    (ChunkType.Preamble, "Preamble".data)
  else
    match chapterCapture fl with
    | some roman => (ChunkType.Section, "Chapter ".data ++ roman)
    | none =>
      match clauseCapture fl with
      | some num => (ChunkType.Clause, "Clause ".data ++ num)
      | none =>
        if containsSub "schedule".data sec_lower then
          (ChunkType.Schedule, "Schedule".data)
        else
          (ChunkType.Other,
            if 5 < byteLen fl ∧ byteLen fl < 100 then fl
            else (List.intersperse " ".data ((splitWS fl).take 8)).flatten)

/-- `extract_identifier` (src/chunker.rs:167-177). -/
def extract_identifier (chunk : Str) (index : Nat) : Str :=
  let fl := firstLine chunk
  if 10 < byteLen fl ∧ byteLen fl < 100 then rustTrim fl
  else "Section ".data ++ (toString (index + 1)).data

/-- The chunk pushed by `fallback_chunking` for an accumulated paragraph run. -/
def mkFallbackChunk (bill_id : Uuid) (bill_number cur : Str) (idx : Nat) : TextChunk :=
  ⟨bill_id, bill_number, idx, ChunkType.Other, extract_identifier cur idx, rustTrim cur⟩

/-- One iteration of the paragraph-accumulator loop of `fallback_chunking`:
state is (chunks so far, current accumulated text, next chunk index). -/
def fallbackStep (bill_id : Uuid) (bill_number : Str)
    (st : List TextChunk × Str × Nat) (para : Str) : List TextChunk × Str × Nat :=
  if 500 < wordCount st.2.1 + wordCount para then
    if st.2.1 ≠ [] then
      (st.1 ++ [mkFallbackChunk bill_id bill_number st.2.1 st.2.2], para, st.2.2 + 1)
    else (st.1, para, st.2.2)
  else
    (st.1, (if st.2.1 ≠ [] then st.2.1 ++ '\n' :: '\n' :: [] else st.2.1) ++ para, st.2.2)

/-- The final push of `fallback_chunking` (src/chunker.rs:151-162): emit the
last accumulated chunk when it is nonempty. -/
def fallbackFinish (bill_id : Uuid) (bill_number : Str)
    (st : List TextChunk × Str × Nat) : List TextChunk :=
  if st.2.1 ≠ [] then st.1 ++ [mkFallbackChunk bill_id bill_number st.2.1 st.2.2] else st.1

/-- `fallback_chunking` (src/chunker.rs:116-165): paragraphs longer than 100
trimmed bytes are accumulated up to 500 words per chunk. -/
def fallback_chunking (text : Str) (bill_id : Uuid) (bill_number : Str) : List TextChunk :=
  fallbackFinish bill_id bill_number
    (((splitNN text).filter fun p => 100 < byteLen (rustTrim p)).foldl
      (fallbackStep bill_id bill_number) ([], [], 0))

/-- The structured-path chunks of `chunk_text`: enumerate the sections, keep
those longer than 50 trimmed bytes, with the enumeration index as
`chunk_index`. -/
def structuredChunks (text bill_number : Str) (bill_id : Uuid) : List TextChunk :=
  (split_into_sections text).enum.filterMap fun is =>
    if 50 < byteLen (rustTrim is.2) then
      some ⟨bill_id, bill_number, is.1, (identify_chunk_type is.2).1,
        (identify_chunk_type is.2).2, rustTrim is.2⟩
    else none

/-- `chunk_text` (src/chunker.rs:5-34); `bill_id` is the `Uuid::new_v4()`
value drawn by the call. -/
def chunk_text (text bill_number : Str) (bill_id : Uuid) : List TextChunk :=
  if structuredChunks text bill_number bill_id = [] then
    fallback_chunking text bill_id bill_number
  else structuredChunks text bill_number bill_id

/-- Rust `slice::chunks(n)` with explicit structural fuel; when
`l.length ≤ fuel` and `0 < n` this is exactly the Rust iterator. -/
def chunksFuel (n : Nat) : Nat → List α → List (List α)
  | _, [] => []
  | 0, l => [l]
  | fuel + 1, c :: cs => ((c :: cs).take n) :: chunksFuel n fuel ((c :: cs).drop n)

/-- Rust `slice::chunks(n)`: consecutive batches of at most `n` elements. -/
def chunksOf (n : Nat) (l : List α) : List (List α) := chunksFuel n l.length l

/-- `EMBEDDING_DIM` (src/embedder.rs:12): the all-MiniLM-L6-v2 hidden size. -/
def EMBEDDING_DIM : Nat := 384

/-- `EmbeddedChunk` (src/models.rs); vector components are modelled as
rationals for the structural (batching/ordering) claims. -/
structure EmbeddedChunk where
  chunk : TextChunk
  embedding : List ℚ
deriving DecidableEq, Repr

/-- The text `embed_chunks` prepares for each chunk (src/embedder.rs:84-91):
`format!("{}\n{}", chunk.chunk_identifier, chunk.content)`. -/
def chunkEmbedText (c : TextChunk) : Str := c.chunk_identifier ++ '\n' :: c.content

/-- `embed_chunks` (src/embedder.rs:80-127): texts are encoded in sub-batches
of size 8 via `encB` (the model forward pass `encode_batch` on one sub-batch),
the per-batch results are concatenated in order, and chunks are zipped with
their embeddings. -/
def embed_chunks (encB : List Str → List (List ℚ)) (chunks : List TextChunk) :
    List EmbeddedChunk :=
  let texts := chunks.map chunkEmbedText
  let embeddings := ((chunksOf 8 texts).map encB).flatten
  (chunks.zip embeddings).map fun ce => ⟨ce.1, ce.2⟩

/-- `embed_query` (src/embedder.rs:130-148): encode the raw query string as a
singleton batch and take the first result (`unwrap_or_default`). -/
def embed_query (encB : List Str → List (List ℚ)) (query : Str) : List ℚ :=
  ((encB [query]).head?).getD []

/-- Outcome of one Qdrant upsert call: `ok` is a success status, `failed e`
a non-success response with body `e` (src/vector_store.rs:107-118). -/
inductive UpsertResult where
  | ok : UpsertResult
  | failed : Str → UpsertResult
deriving DecidableEq, Repr

/-- The batch loop of `store_chunks` (src/vector_store.rs:100-119): PUT each
batch in order, consulting the response oracle `resp` per batch index; on the
first non-success response bail out with the formatted error. Returns the
batches actually sent together with the final result. -/
def upsertLoop (resp : Nat → UpsertResult) :
    List (List α) → Nat → List (List α) × UpsertResult
  | [], _ => ([], UpsertResult.ok)
  | b :: bs, i =>
    match resp i with
    | UpsertResult.ok =>
      let r := upsertLoop resp bs (i + 1)
      (b :: r.1, r.2)
    | UpsertResult.failed e =>
      ([b], UpsertResult.failed ("Failed to upsert points: ".data ++ e))

/-- `store_chunks` batching (src/vector_store.rs:79-122): one point per chunk
in order (point construction with a fresh UUID and denormalized payload is
kept abstract in `α`), written in batches of `BATCH_SIZE = 100`. -/
def store_chunks (resp : Nat → UpsertResult) (points : List α) :
    List (List α) × UpsertResult :=
  upsertLoop resp (chunksOf 100 points) 0

/-- The payload of one search hit as returned by the store: each field is
optional, as `search` reads them from untyped JSON (src/vector_store.rs). -/
structure RawPayload where
  bill_title : Option Str
  bill_number : Option Str
  chunk_identifier : Option Str
  content : Option Str
deriving DecidableEq, Repr

/-- One hit of a successful search response: payload plus optional numeric
score (`item["score"].as_f64()`), scores modelled as rationals. -/
structure RawHit where
  payload : RawPayload
  score : Option ℚ
deriving DecidableEq, Repr

/-- `SearchResult` (src/models.rs). -/
structure SearchResult where
  bill_title : Str
  bill_number : Str
  chunk_identifier : Str
  content : Str
  score : ℚ
deriving DecidableEq, Repr

/-- The per-hit parse inside `search` (src/vector_store.rs:153-166): the
`filter_map` closure, where every `as_str()?` / `as_f64()?` returns `none`
when the field is missing or has the wrong type. -/
def parseHit (h : RawHit) : Option SearchResult :=
  match h.payload.bill_title, h.payload.bill_number, h.payload.chunk_identifier,
      h.payload.content, h.score with
  | some t, some n, some ci, some co, some s => some ⟨t, n, ci, co, s⟩
  | _, _, _, _, _ => none

/-- `search` (src/vector_store.rs:124-168), restricted to a successful store
response `resp` (the list of hits in `result`): `filter_map` over the hits. -/
def search (resp : List RawHit) : List SearchResult := resp.filterMap parseHit

/-- The Euclidean norm computed by `encode_batch` (src/embedder.rs:237):
`mean_embedding.sqr()?.sum_all()?.sqrt()`. -/
noncomputable def l2Norm (v : List ℝ) : ℝ :=
  Real.sqrt (v.map fun x => x * x).sum

/-- The final normalization step of `encode_batch` (src/embedder.rs:236-243):
divide by the norm when it is positive, otherwise return the pooled vector. -/
noncomputable def l2Normalize (v : List ℝ) : List ℝ :=
  if 0 < l2Norm v then v.map fun x => x / l2Norm v else v

/-- Replace a chunk's bill identifier; relates runs of `chunk_text` under
different `Uuid::new_v4()` draws. -/
def setBillId (u : Uuid) (c : TextChunk) : TextChunk := { c with bill_id := u }

/-- All fields of a chunk except the randomly drawn `bill_id`. -/
def chunkData (c : TextChunk) : Str × Nat × ChunkType × Str × Str :=
  (c.bill_number, c.chunk_index, c.chunk_type, c.chunk_identifier, c.content)

/-- A document whose first section ("1. A") is under the 50-byte noise floor
while its second section is above it. -/
def c1Text : Str :=
  "1. A\n2. Data protection obligations apply to every data fiduciary processing personal data.".data

/-- The input text of the spec's two-clause Segmenter scenario. -/
def c4Text : Str :=
  "1. Short title.\n\nThis Act may be called the Test Act.\n\n2. Definitions.\n\nIn this Act...".data

theorem pairwise_chunkIndex_filterMap {α : Type} (f : Nat × α → Option TextChunk)
    (hf : ∀ p c, f p = some c → c.chunk_index = p.1) :
    ∀ l : List (Nat × α), (l.Pairwise fun a b => a.1 < b.1) →
      ((l.filterMap f).map TextChunk.chunk_index).Pairwise (· < ·) := by
  intro l
  induction l with
  | nil => intro _; simp
  | cons a t ih =>
    intro hp
    rw [List.pairwise_cons] at hp
    obtain ⟨h1, h2⟩ := hp
    cases hfa : f a with
    | none => simpa only [List.filterMap_cons, hfa] using ih h2
    | some c =>
      simp only [List.filterMap_cons, hfa, List.map_cons, List.pairwise_cons]
      refine ⟨?_, ih h2⟩
      intro x hx
      rw [List.mem_map] at hx
      obtain ⟨c', hc', rfl⟩ := hx
      rw [List.mem_filterMap] at hc'
      obtain ⟨p, hpmem, hfp⟩ := hc'
      rw [hf a c hfa, hf p c' hfp]
      exact h1 p hpmem

theorem structuredChunks_pairwise (t bn : Str) (u : Uuid) :
    ((structuredChunks t bn u).map TextChunk.chunk_index).Pairwise (· < ·) := by
  unfold structuredChunks
  apply pairwise_chunkIndex_filterMap
  · intro p c h
    split at h
    · cases h; rfl
    · cases h
  · have h1 : ((split_into_sections t).enum.map Prod.fst).Pairwise (· < ·) := by
      rw [List.enum_map_fst]; exact List.pairwise_lt_range _
    exact List.pairwise_map.mp h1

theorem fallback_fold_pairwise (u : Uuid) (bn : Str) :
    ∀ (ps : List Str) (acc : List TextChunk) (cur : Str) (idx : Nat),
      ((acc.map TextChunk.chunk_index).Pairwise (· < ·)) →
      (∀ c ∈ acc, c.chunk_index < idx) →
      (((ps.foldl (fallbackStep u bn) (acc, cur, idx)).1.map TextChunk.chunk_index).Pairwise
          (· < ·)) ∧
        ∀ c ∈ (ps.foldl (fallbackStep u bn) (acc, cur, idx)).1,
          c.chunk_index < (ps.foldl (fallbackStep u bn) (acc, cur, idx)).2.2 := by
  intro ps
  induction ps with
  | nil => intro acc cur idx h1 h2; exact ⟨h1, h2⟩
  | cons p ps ih =>
    intro acc cur idx h1 h2
    rw [List.foldl_cons]
    unfold fallbackStep
    by_cases hb : 500 < wordCount cur + wordCount p
    · rw [if_pos hb]
      by_cases hc : cur ≠ []
      · rw [if_pos hc]
        apply ih
        · rw [List.map_append, List.pairwise_append]
          refine ⟨h1, List.pairwise_singleton _ _, ?_⟩
          intro a ha b hb'
          rw [List.mem_map] at ha
          obtain ⟨c', hc', rfl⟩ := ha
          simp only [List.map_cons, List.map_nil, List.mem_singleton] at hb'
          rw [hb']
          exact h2 c' hc'
        · intro c hc'
          rw [List.mem_append] at hc'
          rcases hc' with h | h
          · exact Nat.lt_succ_of_lt (h2 c h)
          · rw [List.mem_singleton] at h
            rw [h]
            exact Nat.lt_succ_self _
      · rw [if_neg hc]
        exact ih acc p idx h1 h2
    · rw [if_neg hb]
      exact ih acc _ idx h1 h2

theorem fallback_chunking_pairwise (t : Str) (u : Uuid) (bn : Str) :
    ((fallback_chunking t u bn).map TextChunk.chunk_index).Pairwise (· < ·) := by
  unfold fallback_chunking fallbackFinish
  obtain ⟨h1, h2⟩ := fallback_fold_pairwise u bn
    ((splitNN t).filter fun p => 100 < byteLen (rustTrim p)) [] [] 0 (by simp) (by simp)
  split
  · rw [List.map_append, List.pairwise_append]
    refine ⟨h1, List.pairwise_singleton _ _, ?_⟩
    intro a ha b hb
    rw [List.mem_map] at ha
    obtain ⟨c', hc', rfl⟩ := ha
    simp only [List.map_cons, List.map_nil, List.mem_singleton] at hb
    rw [hb]
    exact h2 c' hc'
  · exact h1

/-- C1 (amended): the `chunk_index` values produced by `chunk_text` are
strictly increasing in document order on every input, in both the structured
and the fallback path. -/
theorem chunk_text_index_strictly_increasing (t bn : Str) (u : Uuid) :
    ((chunk_text t bn u).map TextChunk.chunk_index).Pairwise (· < ·) := by
  unfold chunk_text
  split
  · exact fallback_chunking_pairwise t u bn
  · exact structuredChunks_pairwise t bn u

/-- C1 (counterexample): on `c1Text` the single produced chunk has
`chunk_index = 1`, so the index sequence neither starts at 0 nor is gap-free
(it differs from `range` of its length). -/
theorem chunk_text_index_not_zero_based :
    (chunk_text c1Text "B".data 0).map TextChunk.chunk_index ≠
      List.range (chunk_text c1Text "B".data 0).length := by decide

theorem fallback_fold_cur_ne (u : Uuid) (bn : Str) :
    ∀ (ps : List Str), (∀ p ∈ ps, p ≠ []) →
      ∀ (acc : List TextChunk) (cur : Str) (idx : Nat), cur ≠ [] →
        (ps.foldl (fallbackStep u bn) (acc, cur, idx)).2.1 ≠ [] := by
  intro ps
  induction ps with
  | nil => intro _ acc cur idx h; simpa using h
  | cons p ps ih =>
    intro hps acc cur idx hcur
    have hp : p ≠ [] := hps p (List.mem_cons_self _ _)
    have hps' : ∀ q ∈ ps, q ≠ [] := fun q hq => hps q (List.mem_cons_of_mem _ hq)
    rw [List.foldl_cons]
    unfold fallbackStep
    by_cases hb : 500 < wordCount cur + wordCount p
    · rw [if_pos hb]
      by_cases hc : cur ≠ []
      · rw [if_pos hc]; exact ih hps' _ p _ hp
      · rw [if_neg hc]; exact ih hps' _ p _ hp
    · rw [if_neg hb]
      apply ih hps'
      intro hemp
      exact hp (List.append_eq_nil.mp hemp).2

theorem fallbackStep_initial (u : Uuid) (bn : Str) (p : Str) :
    fallbackStep u bn ([], [], 0) p = ([], p, 0) := by
  unfold fallbackStep
  by_cases hb : 500 < wordCount ([] : Str) + wordCount p
  · rw [if_pos hb, if_neg (by simp)]
  · rw [if_neg hb]
    simp

theorem fallback_chunking_ne_nil (t : Str) (u : Uuid) (bn : Str)
    (h : ((splitNN t).filter fun p => 100 < byteLen (rustTrim p)) ≠ []) :
    fallback_chunking t u bn ≠ [] := by
  unfold fallback_chunking
  have hmem : ∀ p ∈ (splitNN t).filter fun p => 100 < byteLen (rustTrim p), p ≠ [] := by
    intro p hp hnil
    rw [List.mem_filter] at hp
    rw [hnil] at hp
    simp [rustTrim, byteLen] at hp
  cases hps : (splitNN t).filter fun p => 100 < byteLen (rustTrim p) with
  | nil => exact absurd hps h
  | cons p rest =>
    rw [hps] at hmem
    rw [List.foldl_cons, fallbackStep_initial]
    have hne := fallback_fold_cur_ne u bn rest
      (fun q hq => hmem q (List.mem_cons_of_mem _ hq)) [] p 0
      (hmem p (List.mem_cons_self _ _))
    unfold fallbackFinish
    rw [if_pos hne]
    simp

/-- C2 (amended): `chunk_text` returns the empty chunk list on empty input;
for non-empty input it is guaranteed to produce at least one chunk only when
some double-newline paragraph exceeds the 100-byte fallback floor (short
non-empty inputs such as "hello" also yield the empty list). -/
theorem chunk_text_empty_and_fallback_nonempty :
    (∀ (bn : Str) (u : Uuid), chunk_text [] bn u = []) ∧
      ∀ (t bn : Str) (u : Uuid),
        ((splitNN t).filter fun p => 100 < byteLen (rustTrim p)) ≠ [] →
          chunk_text t bn u ≠ [] := by
  constructor
  · intro bn u; rfl
  · intro t bn u h
    unfold chunk_text
    by_cases hs : structuredChunks t bn u = []
    · rw [if_pos hs]
      exact fallback_chunking_ne_nil t u bn h
    · rw [if_neg hs]
      exact hs

/-- C2 (counterexample): the input "hello" is non-empty, yet `chunk_text`
returns the empty chunk list, refuting "at least one chunk whenever the
input is non-empty". -/
theorem chunk_text_nonempty_input_empty_output :
    "hello".data ≠ [] ∧ chunk_text "hello".data "B".data 0 = [] := by decide

/-- C2 (witness): a 110-byte single-paragraph input satisfies the fallback
floor, so `chunk_text` produces at least one chunk. -/
theorem chunk_text_empty_and_fallback_nonempty_witness :
    chunk_text (List.replicate 110 'a') "B".data 0 ≠ [] :=
  chunk_text_empty_and_fallback_nonempty.2 (List.replicate 110 'a') "B".data 0 (by decide)

theorem structuredChunks_setBillId (t bn : Str) (u v : Uuid) :
    structuredChunks t bn v = (structuredChunks t bn u).map (setBillId v) := by
  unfold structuredChunks
  rw [List.map_filterMap]
  have hfun : (fun (is : Nat × Str) =>
      Option.map (setBillId v) (if 50 < byteLen (rustTrim is.2) then
        some (⟨u, bn, is.1, (identify_chunk_type is.2).1,
          (identify_chunk_type is.2).2, rustTrim is.2⟩ : TextChunk) else none)) =
      fun (is : Nat × Str) => if 50 < byteLen (rustTrim is.2) then
        some (⟨v, bn, is.1, (identify_chunk_type is.2).1,
          (identify_chunk_type is.2).2, rustTrim is.2⟩ : TextChunk) else none := by
    funext is
    split
    · rfl
    · rfl
  rw [hfun]

theorem fallback_fold_setBillId (bn : Str) (u v : Uuid) :
    ∀ (ps : List Str) (acc : List TextChunk) (cur : Str) (idx : Nat),
      ps.foldl (fallbackStep v bn) (acc.map (setBillId v), cur, idx) =
        ((ps.foldl (fallbackStep u bn) (acc, cur, idx)).1.map (setBillId v),
          (ps.foldl (fallbackStep u bn) (acc, cur, idx)).2.1,
          (ps.foldl (fallbackStep u bn) (acc, cur, idx)).2.2) := by
  intro ps
  induction ps with
  | nil => intro acc cur idx; rfl
  | cons p ps ih =>
    intro acc cur idx
    rw [List.foldl_cons, List.foldl_cons]
    unfold fallbackStep
    by_cases hb : 500 < wordCount cur + wordCount p
    · rw [if_pos hb, if_pos hb]
      by_cases hc : cur ≠ []
      · rw [if_pos hc, if_pos hc]
        have h := ih (acc ++ [mkFallbackChunk u bn cur idx]) p (idx + 1)
        rw [List.map_append] at h
        exact h
      · rw [if_neg hc, if_neg hc]
        exact ih acc p idx
    · rw [if_neg hb, if_neg hb]
      exact ih acc _ idx

theorem fallback_chunking_setBillId (t : Str) (u v : Uuid) (bn : Str) :
    fallback_chunking t v bn = (fallback_chunking t u bn).map (setBillId v) := by
  unfold fallback_chunking
  have h := fallback_fold_setBillId bn u v
    ((splitNN t).filter fun p => 100 < byteLen (rustTrim p)) [] [] 0
  rw [List.map_nil] at h
  rw [h]
  unfold fallbackFinish
  by_cases hc :
      (((splitNN t).filter fun p => 100 < byteLen (rustTrim p)).foldl
        (fallbackStep u bn) ([], [], 0)).2.1 ≠ []
  · rw [if_pos hc, if_pos hc, List.map_append]
    rfl
  · rw [if_neg hc, if_neg hc]

theorem chunk_text_setBillId (t bn : Str) (u v : Uuid) :
    chunk_text t bn v = (chunk_text t bn u).map (setBillId v) := by
  unfold chunk_text
  by_cases h : structuredChunks t bn u = []
  · have hv : structuredChunks t bn v = [] := by
      rw [structuredChunks_setBillId t bn u v, h, List.map_nil]
    rw [if_pos hv, if_pos h]
    exact fallback_chunking_setBillId t u v bn
  · have hv : structuredChunks t bn v ≠ [] := by
      rw [structuredChunks_setBillId t bn u v]
      simpa using h
    rw [if_neg hv, if_neg h]
    exact structuredChunks_setBillId t bn u v

/-- C3 (amended): `chunk_text` is deterministic in every field except
`bill_id`: two runs on identical text and bill number, with (possibly
different) freshly drawn UUIDs, agree on bill number, index, kind, label and
content of every chunk; for a fixed draw the runs are fully identical. -/
theorem chunk_text_deterministic_up_to_bill_id (t bn : Str) (u v : Uuid) :
    (chunk_text t bn u).map chunkData = (chunk_text t bn v).map chunkData := by
  rw [chunk_text_setBillId t bn v u, List.map_map]
  congr 1

/-- C3 (counterexample): the `bill_id` field is a fresh `Uuid::new_v4()` draw
per call, so two calls on identical arguments whose draws differ yield chunk
sequences that are not equal field-for-field. -/
theorem chunk_text_not_identical_across_draws :
    chunk_text c1Text "B".data 0 ≠ chunk_text c1Text "B".data 1 := by decide

/-- C4 (counterexample): on the spec's scenario text the Segmenter produces
one chunk, not two — the second section ("2. Definitions....") has only 31
trimmed bytes, under the 50-byte noise floor. -/
theorem segmenter_scenario_not_two_chunks :
    (chunk_text c4Text "B".data 0).length ≠ 2 := by decide

/-- C4 (amended): on the scenario text `chunk_text` produces exactly one
chunk, of kind `Clause`, labeled "Clause 1". -/
theorem segmenter_scenario_single_clause :
    (chunk_text c4Text "B".data 0).map (fun c => (c.chunk_type, c.chunk_identifier)) =
      [(ChunkType.Clause, "Clause 1".data)] := by decide

theorem chunksFuel_flatten {α : Type} (n : Nat) (hn : 0 < n) :
    ∀ (fuel : Nat) (l : List α), l.length ≤ fuel → (chunksFuel n fuel l).flatten = l := by
  intro fuel
  induction fuel with
  | zero =>
    intro l hl
    rw [Nat.le_zero, List.length_eq_zero] at hl
    rw [hl]
    rfl
  | succ fuel ih =>
    intro l hl
    cases l with
    | nil => rfl
    | cons c cs =>
      unfold chunksFuel
      rw [List.flatten_cons]
      rw [ih ((c :: cs).drop n) (by
        simp only [List.length_drop, List.length_cons]
        rw [List.length_cons] at hl
        omega)]
      exact List.take_append_drop n (c :: cs)

theorem chunksFuel_mem_length {α : Type} (n : Nat) (hn : 0 < n) :
    ∀ (fuel : Nat) (l : List α) (b : List α), b ∈ chunksFuel n fuel l →
      l.length ≤ fuel → b.length ≤ n := by
  intro fuel
  induction fuel with
  | zero =>
    intro l b hb hl
    rw [Nat.le_zero, List.length_eq_zero] at hl
    rw [hl] at hb
    cases hb
  | succ fuel ih =>
    intro l b hb hl
    cases l with
    | nil => cases hb
    | cons c cs =>
      unfold chunksFuel at hb
      rw [List.mem_cons] at hb
      rcases hb with h | h
      · rw [h, List.length_take]
        exact min_le_left _ _
      · exact ih ((c :: cs).drop n) b h (by
          simp only [List.length_drop, List.length_cons]
          rw [List.length_cons] at hl
          omega)

theorem chunksOf_flatten {α : Type} (n : Nat) (hn : 0 < n) (l : List α) :
    (chunksOf n l).flatten = l :=
  chunksFuel_flatten n hn l.length l le_rfl

theorem chunksOf_mem_length {α : Type} (n : Nat) (hn : 0 < n) (l : List α) (b : List α)
    (hb : b ∈ chunksOf n l) : b.length ≤ n :=
  chunksFuel_mem_length n hn l.length l b hb le_rfl

theorem zip_self_map {α β : Type} (g : α → β) :
    ∀ l : List α, l.zip (l.map g) = l.map fun a => (a, g a) := by
  intro l
  induction l with
  | nil => rfl
  | cons a t ih => rw [List.map_cons, List.zip_cons_cons, ih, List.map_cons]

/-- C7 (confirmed): `embed_chunks` encodes the chunk texts in sub-batches of
at most 8 and concatenates the per-batch results in input order, so whenever
the per-batch encoder computes each output from the corresponding input text
(`encB b = b.map encode`), output `i` is the encoding of input `i`. -/
theorem embed_chunks_batched_in_order (encB : List Str → List (List ℚ))
    (encode : Str → List ℚ) (hencB : ∀ b, encB b = b.map encode)
    (chunks : List TextChunk) :
    embed_chunks encB chunks =
        (chunks.map fun c => ⟨c, encode (chunkEmbedText c)⟩) ∧
      ∀ b ∈ chunksOf 8 (chunks.map chunkEmbedText), b.length ≤ 8 := by
  constructor
  · have hencB' : encB = fun b => b.map encode := funext hencB
    unfold embed_chunks
    rw [hencB']
    dsimp only
    rw [show List.map (fun b => List.map encode b)
          (chunksOf 8 (List.map chunkEmbedText chunks)) =
        List.map (List.map encode) (chunksOf 8 (List.map chunkEmbedText chunks)) from rfl]
    rw [← List.map_flatten, chunksOf_flatten 8 (by omega), List.map_map,
      zip_self_map, List.map_map]
    rfl
  · intro b hb
    exact chunksOf_mem_length 8 (by omega) _ b hb

/-- C7 (witness): two concrete chunks encoded with a length-based encoder
land at their own indices. -/
theorem embed_chunks_batched_in_order_witness :
    embed_chunks (fun b => b.map fun s => [(s.length : ℚ)])
        [⟨0, "B".data, 0, ChunkType.Clause, "Clause 1".data, "aa".data⟩,
          ⟨0, "B".data, 1, ChunkType.Clause, "Clause 2".data, "bbbb".data⟩] =
      [⟨⟨0, "B".data, 0, ChunkType.Clause, "Clause 1".data, "aa".data⟩, [(11 : ℚ)]⟩,
        ⟨⟨0, "B".data, 1, ChunkType.Clause, "Clause 2".data, "bbbb".data⟩, [(13 : ℚ)]⟩] := by
  rw [(embed_chunks_batched_in_order (fun b => b.map fun s => [(s.length : ℚ)])
    (fun s => [(s.length : ℚ)]) (fun _ => rfl) _).1]
  rfl

theorem upsertLoop_fail_spec {α : Type} (resp : Nat → UpsertResult) :
    ∀ (bs : List (List α)) (k i : Nat) (e : Str), i < bs.length →
      resp (k + i) = UpsertResult.failed e →
      (∀ j, j < i → resp (k + j) = UpsertResult.ok) →
      upsertLoop resp bs k =
        (bs.take (i + 1), UpsertResult.failed ("Failed to upsert points: ".data ++ e)) := by
  intro bs
  induction bs with
  | nil =>
    intro k i e hi
    simp at hi
  | cons b bs ih =>
    intro k i e hi hfail hok
    cases i with
    | zero =>
      rw [Nat.add_zero] at hfail
      unfold upsertLoop
      rw [hfail]
      rfl
    | succ i =>
      have h0 : resp k = UpsertResult.ok := by
        have := hok 0 (Nat.succ_pos i)
        rwa [Nat.add_zero] at this
      unfold upsertLoop
      rw [h0]
      rw [List.length_cons] at hi
      rw [ih (k + 1) i e (by omega)
        (by
          have harith : k + 1 + i = k + (i + 1) := by omega
          rw [harith]
          exact hfail)
        (fun j hj => by
          have harith : k + 1 + j = k + (j + 1) := by omega
          rw [harith]
          exact hok (j + 1) (by omega))]
      rfl

/-- C5 (amended): `store_chunks` writes its points in batches of at most 100
per call; on the first failing batch it stops — no later batch is sent — and
returns an error wrapping the store's response body, but that error does not
itself encode the index of the failed batch. -/
theorem store_chunks_batching (resp : Nat → UpsertResult) (points : List Nat)
    (i : Nat) (e : Str) (hi : i < (chunksOf 100 points).length)
    (hfail : resp i = UpsertResult.failed e)
    (hok : ∀ j, j < i → resp j = UpsertResult.ok) :
    (∀ b ∈ (store_chunks resp points).1, b.length ≤ 100) ∧
      (store_chunks resp points).1 = (chunksOf 100 points).take (i + 1) ∧
      (store_chunks resp points).2 =
        UpsertResult.failed ("Failed to upsert points: ".data ++ e) := by
  have hspec := upsertLoop_fail_spec resp (chunksOf 100 points) 0 i e hi
    (by rw [Nat.zero_add]; exact hfail)
    (fun j hj => by rw [Nat.zero_add]; exact hok j hj)
  unfold store_chunks
  rw [hspec]
  refine ⟨?_, rfl, rfl⟩
  intro b hb
  exact chunksOf_mem_length 100 (by omega) points b
    ((List.take_sublist _ _).mem hb)

/-- C5 (witness): with 150 points (two batches) and the second batch
failing, exactly the two batches are sent and the error wraps the response
body. -/
theorem store_chunks_batching_witness :
    (∀ b ∈ (store_chunks
        (fun i => if i = 1 then UpsertResult.failed "x".data else UpsertResult.ok)
        (List.replicate 150 0)).1, b.length ≤ 100) ∧
      (store_chunks
        (fun i => if i = 1 then UpsertResult.failed "x".data else UpsertResult.ok)
        (List.replicate 150 0)).1 = (chunksOf 100 (List.replicate 150 0)).take 2 ∧
      (store_chunks
        (fun i => if i = 1 then UpsertResult.failed "x".data else UpsertResult.ok)
        (List.replicate 150 0)).2 =
        UpsertResult.failed ("Failed to upsert points: ".data ++ "x".data) :=
  store_chunks_batching
    (fun i => if i = 1 then UpsertResult.failed "x".data else UpsertResult.ok)
    (List.replicate 150 0) 1 "x".data (by decide) (by decide)
    (fun j hj => by
      have hj0 : j = 0 := by omega
      rw [hj0]
      rfl)

/-- C5 (counterexample): two runs over the same 150 points in which different
batches fail with the same response body return the same error value, so the
returned error does not identify which batch failed. -/
theorem store_chunks_error_not_batch_identifying :
    (store_chunks (fun _ => UpsertResult.failed "oops".data)
        (List.replicate 150 (0 : Nat))).2 =
      (store_chunks
        (fun i => if i = 0 then UpsertResult.ok else UpsertResult.failed "oops".data)
        (List.replicate 150 (0 : Nat))).2 ∧
      (store_chunks (fun _ => UpsertResult.failed "oops".data)
        (List.replicate 150 (0 : Nat))).1.length = 1 ∧
      (store_chunks
        (fun i => if i = 0 then UpsertResult.ok else UpsertResult.failed "oops".data)
        (List.replicate 150 (0 : Nat))).1.length = 2 := by decide

theorem filterMap_length_of_isSome {α β : Type} (f : α → Option β) :
    ∀ l : List α, (∀ a ∈ l, (f a).isSome) → (l.filterMap f).length = l.length := by
  intro l
  induction l with
  | nil => intro _; rfl
  | cons a t ih =>
    intro h
    have ha := h a (List.mem_cons_self _ _)
    rw [Option.isSome_iff_exists] at ha
    obtain ⟨b, hb⟩ := ha
    rw [List.filterMap_cons, hb, List.length_cons,
      ih fun x hx => h x (List.mem_cons_of_mem _ hx)]
    rfl

/-- A hit whose payload has all four string fields and a numeric score. -/
def completeHit (h : RawHit) : Prop := (parseHit h).isSome

/-- C6 (amended): `search` returns every hit of a successful store response
whose payload carries all four string fields and a numeric score — one
`SearchResult` per such hit, built by `parseHit` from the hit's own payload
and score — but hits with a missing or mistyped field are silently dropped
by the `filter_map`. -/
theorem search_returns_all_complete_hits (resp : List RawHit)
    (h : ∀ hit ∈ resp, completeHit hit) :
    (search resp).length = resp.length ∧
      ∀ hit ∈ resp, ∀ r, parseHit hit = some r → r ∈ search resp := by
  constructor
  · exact filterMap_length_of_isSome parseHit resp h
  · intro hit hmem r hr
    unfold search
    rw [List.mem_filterMap]
    exact ⟨hit, hmem, hr⟩

/-- C6 (witness): a response of two complete hits is returned in full. -/
theorem search_returns_all_complete_hits_witness :
    (search [⟨⟨some "T".data, some "N".data, some "C1".data, some "body one".data⟩, some 1⟩,
      ⟨⟨some "T".data, some "N".data, some "C2".data, some "body two".data⟩, some 2⟩]).length =
      2 :=
  (search_returns_all_complete_hits
    [⟨⟨some "T".data, some "N".data, some "C1".data, some "body one".data⟩, some 1⟩,
      ⟨⟨some "T".data, some "N".data, some "C2".data, some "body two".data⟩, some 2⟩]
    (by
      intro hit hmem
      rw [List.mem_cons, List.mem_cons] at hmem
      rcases hmem with h | h | h
      · rw [h]; exact rfl
      · rw [h]; exact rfl
      · cases h)).1

/-- C6 (counterexample): a successful response with two hits, the second
missing its `content` payload field, yields only one `SearchResult` — the
malformed hit is silently omitted rather than surfaced as an error. -/
theorem search_silently_drops_incomplete_hit :
    (search [⟨⟨some "T".data, some "N".data, some "C1".data, some "body one".data⟩, some 1⟩,
      ⟨⟨some "T".data, some "N".data, some "C2".data, none⟩, some 2⟩]).length = 1 := by decide

theorem l2Norm_nonneg (v : List ℝ) : 0 ≤ l2Norm v := Real.sqrt_nonneg _

theorem sumSq_nonneg (v : List ℝ) : 0 ≤ (v.map fun x => x * x).sum := by
  apply List.sum_nonneg
  intro x hx
  rw [List.mem_map] at hx
  obtain ⟨y, _, rfl⟩ := hx
  exact mul_self_nonneg y

theorem l2Norm_pos_of_ne_zero (v : List ℝ) (h : l2Norm v ≠ 0) : 0 < l2Norm v :=
  lt_of_le_of_ne (l2Norm_nonneg v) (Ne.symm h)

theorem l2Normalize_of_pos (v : List ℝ) (h : 0 < l2Norm v) :
    l2Normalize v = v.map fun x => x / l2Norm v := by
  unfold l2Normalize
  rw [if_pos h]

theorem l2Normalize_of_not_pos (v : List ℝ) (h : ¬ 0 < l2Norm v) :
    l2Normalize v = v := by
  unfold l2Normalize
  rw [if_neg h]

theorem l2Norm_of_normalized (v : List ℝ) (h : l2Norm v ≠ 0) :
    l2Norm (v.map fun x => x / l2Norm v) = 1 := by
  have hS : 0 ≤ (v.map fun x => x * x).sum := sumSq_nonneg v
  have hSne : (v.map fun x => x * x).sum ≠ 0 := by
    intro h0
    exact h (by rw [l2Norm, h0, Real.sqrt_zero])
  have hsq : l2Norm v * l2Norm v = (v.map fun x => x * x).sum :=
    Real.mul_self_sqrt hS
  have hfun : ((fun x => x * x) ∘ fun x => x / l2Norm v) =
      fun x => (x * x) * (l2Norm v * l2Norm v)⁻¹ := by
    funext x
    simp only [Function.comp_apply, div_eq_mul_inv, mul_inv]
    ring
  have key : ((v.map fun x => x / l2Norm v).map fun x => x * x).sum = 1 := by
    rw [List.map_map, hfun, List.sum_map_mul_right, hsq, mul_inv_cancel₀ hSne]
  show Real.sqrt ((v.map fun x => x / l2Norm v).map fun x => x * x).sum = 1
  rw [key, Real.sqrt_one]

/-- C8 (confirmed): the normalization step of `encode_batch` divides every
component by the Euclidean norm exactly when the norm is nonzero, and returns
the unnormalized vector (performing no division) when the norm is zero —
the code's `norm > 0.0` guard coincides with `norm ≠ 0` since the norm is
nonnegative. -/
theorem encode_batch_normalization_guard (v : List ℝ) :
    (l2Norm v = 0 → l2Normalize v = v) ∧
      (l2Norm v ≠ 0 → l2Normalize v = v.map fun x => x / l2Norm v) := by
  constructor
  · intro h
    apply l2Normalize_of_not_pos
    rw [h]
    exact lt_irrefl 0
  · intro h
    exact l2Normalize_of_pos v (l2Norm_pos_of_ne_zero v h)

/-- C8 (witness): the zero vector is returned unchanged; a nonzero vector is
divided componentwise by its norm. -/
theorem encode_batch_normalization_guard_witness :
    l2Normalize [(0 : ℝ), 0] = [0, 0] ∧ l2Normalize [(3 : ℝ), 4] = [3 / 5, 4 / 5] := by
  have h0 : l2Norm [(0 : ℝ), 0] = 0 := by
    unfold l2Norm
    norm_num
  have h5 : l2Norm [(3 : ℝ), 4] = 5 := by
    unfold l2Norm
    norm_num
    rw [show (25 : ℝ) = 5 ^ 2 by norm_num, Real.sqrt_sq (by norm_num)]
  constructor
  · exact (encode_batch_normalization_guard [(0 : ℝ), 0]).1 h0
  · rw [(encode_batch_normalization_guard [(3 : ℝ), 4]).2 (by rw [h5]; norm_num), h5]
    norm_num

/-- C9 (confirmed): for a pooled vector of the model's hidden size 384, the
embedding produced by the final step of `encode_batch` (hence by
`embed_query`/`encode_one`) has length `EMBEDDING_DIM = 384` and Euclidean
norm within 0.01 of 1 — exactly 1 — unless pooling yielded the zero-norm
vector, which is returned unnormalized. -/
theorem encode_one_dim_and_norm (v : List ℝ) (hlen : v.length = EMBEDDING_DIM) :
    (l2Normalize v).length = EMBEDDING_DIM ∧
      (l2Norm v ≠ 0 → |l2Norm (l2Normalize v) - 1| ≤ 1 / 100) := by
  constructor
  · by_cases h : 0 < l2Norm v
    · rw [l2Normalize_of_pos v h, List.length_map]
      exact hlen
    · rw [l2Normalize_of_not_pos v h]
      exact hlen
  · intro h
    rw [l2Normalize_of_pos v (l2Norm_pos_of_ne_zero v h), l2Norm_of_normalized v h]
    norm_num

/-- C9 (witness): a concrete 384-component pooled vector. -/
theorem encode_one_dim_and_norm_witness :
    (l2Normalize ((1 : ℝ) :: List.replicate 383 0)).length = EMBEDDING_DIM :=
  (encode_one_dim_and_norm ((1 : ℝ) :: List.replicate 383 0)
    (by simp [EMBEDDING_DIM])).1

/-- C10 (confirmed): at ingest time `embed_chunks` feeds the encoder the
chunk identifier, a newline and the chunk body — never the bare body, since
the fed text is strictly longer — while `embed_query` feeds the raw query
string unchanged, so for any pointwise encoder the query embedding is the
encoding of the query itself. -/
theorem ingest_and_query_text_shapes (encode : Str → List ℚ) (c : TextChunk) (q : Str) :
    chunkEmbedText c = c.chunk_identifier ++ '\n' :: c.content ∧
      chunkEmbedText c ≠ c.content ∧
      embed_query (fun b => b.map encode) q = encode q := by
  refine ⟨rfl, ?_, rfl⟩
  intro h
  have hlen := congrArg List.length h
  rw [chunkEmbedText, List.length_append, List.length_cons] at hlen
  omega

end LegRag
